import Mathlib

/-!
Verification of the vkdgen binding-generation engine (src/vkdgen.py) against
its natural-language specification.  The Python source is shallowly embedded:
pure helpers become Lean functions, the mutable `SourceFile` buffer becomes a
record threaded through explicit state-passing functions, and the regex-based
type rewrites are embedded as executable matchers implementing the two concrete
patterns with the engine's leftmost/greedy backtracking order.
-/

namespace Vkdgen

/-! ## Data model (classes Param, Const, BaseType, Enum, Struct, Command,
FeatureGuard, Feature of DGenerator) -/

structure Param where
  name : String
  typeStr : String
deriving DecidableEq, Repr

structure Const where
  name : String
  value : String
deriving DecidableEq, Repr

structure BaseType where
  name : String
  aliasTo : String
deriving DecidableEq, Repr

structure Command where
  name : String
  returnType : String
  params : List Param
deriving DecidableEq, Repr

structure FeatureGuard where
  name : String
  versionGuards : List String
  stmts : List String
deriving DecidableEq, Repr

structure Feature where
  name : String
  guard : Option FeatureGuard
  baseTypes : List BaseType := []
  handles : List String := []
  ndHandles : List String := []
  consts : List Const := []
  funcptrs : List Command := []
  structs : List (String × String × List Param) := []
  cmds : List Command := []
  instanceCmds : List Command := []
  deviceCmds : List Command := []
deriving DecidableEq, Repr

/-! ## D-specific utilities: keyword escaping (mapDName, dkeywords) -/

/-- `dkeywords = [ "module" ]` from the source. -/
def dkeywords : List String := ["module"]

/-- `mapDName` from the source: append an underscore when the name is a D
keyword.  Defined in the source but never called by any construction site. -/
def mapDName (name : String) : String :=
  if dkeywords.contains name then name ++ "_" else name

/-- Construction of a struct-member `Param` in `DGenerator.genStruct`
(lines 426-433): the member name is escaped inline with an underscore
suffix when it collides with a D keyword. -/
def structMemberParam (memName : String) (typeStr : String) : Param :=
  if dkeywords.contains memName then ⟨memName ++ "_", typeStr⟩ else ⟨memName, typeStr⟩

/-- Construction of a command-parameter `Param` in `DGenerator.genCmd`
(line 444): the raw registry name is stored as-is, with no keyword escape. -/
def genCmdParam (rawName : String) (typeStr : String) : Param :=
  ⟨rawName, typeStr⟩

/-- Construction of a function-pointer-parameter `Param` in
`DGenerator.genType`, funcpointer branch (lines 368-379): the name is the raw
token with the characters of a comma, a closing paren and a semicolon removed,
and no keyword escape is applied. -/
def funcptrParamName (raw : List Char) : List Char :=
  (raw.filter (fun c => !(c == ','))).filter (fun c => !(c == ')')) |>.filter (fun c => !(c == ';'))

/-! ## Command Classifier (DGenerator.genCmd, lines 449-456) -/

/-- `self.globalCmdNames` from `DGenerator.__init__`. -/
def globalCmdNames : List String :=
  ["vkGetInstanceProcAddr",
   "vkEnumerateInstanceExtensionProperties",
   "vkEnumerateInstanceLayerProperties",
   "vkCreateInstance"]

/-- The set `\x7b "VkDevice", "VkQueue", "VkCommandBuffer" \x7d` tested by
`genCmd` against the first parameter's mapped type. -/
def deviceParamTypes : List String := ["VkDevice", "VkQueue", "VkCommandBuffer"]

inductive Tier where
  | global
  | device
  | instance_
deriving DecidableEq, Repr

/-- The test `len(params) and params[0].typeStr in \x7b...\x7d` from genCmd:
Python short-circuits on an empty parameter list and otherwise inspects only
the first parameter. -/
def firstParamIsDeviceLevel (params : List Param) : Bool :=
  match params with
  | [] => false
  | p :: _ => deviceParamTypes.contains p.typeStr

/-- The tier decision of `DGenerator.genCmd` (the if/elif/else on
lines 451-456). -/
def classifyCmd (name : String) (params : List Param) : Tier :=
  if globalCmdNames.contains name then Tier.global
  else if name != "vkGetDeviceProcAddr" && firstParamIsDeviceLevel params then Tier.device
  else Tier.instance_

/-- Modelled from the spec: the Command Classifier as worded in spec §4.3 and
claim C1, where `device` requires "at least one parameter whose mapped type is
in the set" rather than the first parameter.  Used only to compare the spec's
wording with the code's `classifyCmd`. -/
def specClassifyCmd (name : String) (params : List Param) : Tier :=
  if globalCmdNames.contains name then Tier.global
  else if name != "vkGetDeviceProcAddr" && params.any (fun p => deviceParamTypes.contains p.typeStr) then Tier.device
  else Tier.instance_

/-- State update of `DGenerator.genCmd` (lines 447-456) on the open feature
and the generator-wide `globalCmds` list: the command is always appended to
`feature.cmds`, and then to exactly one of `globalCmds`,
`feature.deviceCmds`, `feature.instanceCmds` according to the tier. -/
def genCmdUpdate (feat : Feature) (globalCmds : List Command) (cmd : Command) :
    Feature × List Command :=
  let feat := { feat with cmds := feat.cmds ++ [cmd] }
  match classifyCmd cmd.name cmd.params with
  | Tier.global => (feat, globalCmds ++ [cmd])
  | Tier.device => ({ feat with deviceCmds := feat.deviceCmds ++ [cmd] }, globalCmds)
  | Tier.instance_ => ({ feat with instanceCmds := feat.instanceCmds ++ [cmd] }, globalCmds)

/-! ## SourceFile (class SourceFile, lines 25-71): an append-only line buffer
with a current indentation level.  The level is a Python int, hence `Int`;
the indentation prefix is the string `'    '` repeated level-many times,
which in Python is empty for non-positive levels. -/

structure SourceFile where
  lines : List String
  indentLvl : Int
deriving DecidableEq, Repr

def oneIndentLevel : String := "    "

/-- Python `SourceFile._one_indent_level * self._indent`. -/
def indentStr (n : Int) : String :=
  String.join (List.replicate n.toNat oneIndentLevel)

def SourceFile.indent (sf : SourceFile) : SourceFile :=
  { sf with indentLvl := sf.indentLvl + 1 }

def SourceFile.unindent (sf : SourceFile) : SourceFile :=
  { sf with indentLvl := sf.indentLvl - 1 }

/-- Python `SourceFile.__call__`: append one line at the current indentation.
The printf-style formatting of the source is rendered by the callers as
explicit string concatenation. -/
def SourceFile.call (sf : SourceFile) (line : String) : SourceFile :=
  { sf with lines := sf.lines ++ [indentStr sf.indentLvl ++ line] }

/-- Outcome of running a Python block over the mutable buffer: either a normal
completion carrying the final state, or a raised exception carrying the
exception value together with the state at raise time (the Python object
keeps whatever mutations the block performed before raising). -/
inductive PyResult (ε α : Type) where
  | ok : α → PyResult ε α
  | exn : ε → α → PyResult ε α
deriving DecidableEq, Repr

def PyResult.state {ε α : Type} : PyResult ε α → α
  | .ok a => a
  | .exn _ a => a

/-- Python `with sf.indentBlock():` (SourceFile.indentBlock, lines 38-46):
`__enter__` increments the level, the body runs, and `__exit__` decrements the
level — on the normal path and equally when the body raises, since Python
calls `__exit__` before propagating the exception. -/
def withIndentBlock {ε : Type} (body : SourceFile → PyResult ε SourceFile)
    (sf : SourceFile) : PyResult ε SourceFile :=
  match body sf.indent with
  | .ok sf2 => .ok sf2.unindent
  | .exn e sf2 => .exn e sf2.unindent

/-! ## Python str.replace, and the enum-value normalization of genEnum -/

/-- Fueled worker for `replaceAll`.  One unit of fuel is spent per output
step; since a nonempty pattern consumes at least one input character per
step, fuel equal to the input length is always sufficient. -/
def replaceAllAux (pat rep : List Char) : Nat → List Char → List Char
  | _, [] => []
  | 0, s => s
  | fuel + 1, c :: rest =>
    if (!pat.isEmpty) && pat.isPrefixOf (c :: rest) then
      rep ++ replaceAllAux pat rep fuel ((c :: rest).drop pat.length)
    else
      c :: replaceAllAux pat rep fuel rest

/-- Python `s.replace(pat, rep)` for a nonempty pattern: replace every
occurrence, scanning left to right without overlap. -/
def replaceAll (pat rep s : List Char) : List Char :=
  replaceAllAux pat rep s.length s

/-- `.replace("0ULL", "0")` of genEnum. -/
def stripULL (s : List Char) : List Char := replaceAll "0ULL".data "0".data s

/-- `.replace("0L", "0")` of genEnum. -/
def stripL (s : List Char) : List Char := replaceAll "0L".data "0".data s

/-- `.replace("0U", "0")` of genEnum. -/
def stripU (s : List Char) : List Char := replaceAll "0U".data "0".data s

/-- `.replace("(", "").replace(")", "")` of genEnum. -/
def stripParens (s : List Char) : List Char :=
  replaceAll ")".data "".data (replaceAll "(".data "".data s)

/-- The full value normalization applied in `DGenerator.genEnum`
(lines 391-401): the five Python replaces in source order. -/
def normValue (s : String) : String :=
  ⟨stripParens (stripU (stripL (stripULL s.data)))⟩

/-- `DGenerator.genEnum` (lines 386-401): append the constant with the
normalized value text to the open feature's `consts`. -/
def genEnumUpdate (feat : Feature) (name : String) (strVal : String) : Feature :=
  { feat with consts := feat.consts ++ [⟨name, normValue strVal⟩] }

/-! ## Type Mapper: convertDTypeConst (lines 76-93).

The two regexes are embedded as executable matchers over character lists:

  re_single_const = `^const\s+(.+)\*\s*$`
  re_double_const = `^const\s+(.+)\*\s+const\*\s*$`

Both have the shape: literal `const`, greedy `\s+`, greedy group `(.+)`,
literal `*`, then a rest pattern.  The matchers below realize exactly the
backtracking order of the regex engine: the greedy `\s+` is tried from its
maximal run downwards, and for each choice the greedy group is tried longest
first, i.e. the closing `*` is placed as far right as possible first. -/

/-- Python `\s` on ASCII text: space, tab, newline, carriage return, vertical
tab, form feed. -/
def isPySpace (c : Char) : Bool :=
  c == ' ' || c == '\t' || c == '\n' || c == '\r' || c == Char.ofNat 11 || c == Char.ofNat 12

/-- One attempt to close the greedy group `(.+)` with the literal `*` at
offset `i` of `l`: the group is `l.take i` (nonempty, and newline-free since
`.` does not match a newline), the character at offset `i` must be `*`, and
`suffixOk` checks the remaining tail against the regex's rest pattern. -/
def groupSplitAt (suffixOk : List Char → Bool) (l : List Char) (i : Nat) :
    Option (List Char) :=
  match l.drop i with
  | [] => none
  | c :: tail =>
    if c == '*' && i != 0 && (l.take i).all (fun x => !(x == '\n')) && suffixOk tail then
      some (l.take i)
    else none

/-- Backtracking placement of the group-closing `*`, longest group first:
offsets `fuel, fuel-1, ..., 1` are tried in order, as the engine resolves the
greedy `(.+)\*`. -/
def findStarSplit (suffixOk : List Char → Bool) (l : List Char) : Nat → Option (List Char)
  | 0 => none
  | i + 1 =>
    match groupSplitAt suffixOk l (i + 1) with
    | some g => some g
    | none => findStarSplit suffixOk l i

/-- Rest pattern `\s*$` of re_single_const (`$` may also sit before a final
newline, which `\s*` consumes anyway: the tail must be all whitespace). -/
def allSpace (l : List Char) : Bool := l.all isPySpace

/-- Rest pattern `\s+const\*\s*$` of re_double_const: at least one whitespace
character, the literal `const*`, then only whitespace.  The greedy `\s+`
cannot trade characters with the literal `c`, so only the maximal whitespace
run can match it. -/
def doubleSuffixOk (l : List Char) : Bool :=
  let ws := l.takeWhile isPySpace
  !ws.isEmpty && "const*".data.isPrefixOf (l.drop ws.length)
    && allSpace ((l.drop ws.length).drop 6)

/-- The whole `^const\s+(.+)\*...$` match: literal `const`, then the greedy
`\s+` resolved by backtracking from the maximal whitespace run (length `k`)
down to a single character, each choice handing the rest to the group
matcher. -/
def matchAfterWs (suffixOk : List Char → Bool) (r : List Char) : Nat → Option (List Char)
  | 0 => none
  | k + 1 =>
    match findStarSplit suffixOk (r.drop (k + 1)) (r.drop (k + 1)).length with
    | some g => some g
    | none => matchAfterWs suffixOk r k

/-- `re.match` of one of the two const regexes against `s`, returning the
text of capture group 1 when the regex matches. -/
def matchConstRe (suffixOk : List Char → Bool) (s : List Char) : Option (List Char) :=
  if "const".data.isPrefixOf s then
    matchAfterWs suffixOk (s.drop 5) ((s.drop 5).takeWhile isPySpace).length
  else none

/-- `re.match(re_single_const, typ)` returning group 1. -/
def reSingleConstMatch (s : List Char) : Option (List Char) :=
  matchConstRe allSpace s

/-- `re.match(re_double_const, typ)` returning group 1. -/
def reDoubleConstMatch (s : List Char) : Option (List Char) :=
  matchConstRe doubleSuffixOk s

/-- `convertDTypeConst` (lines 82-93): the double-indirection rewrite is
tested first; if it fails the single-indirection rewrite is tested; if both
fail the input is returned unchanged. -/
def convertDTypeConst (typ : String) : String :=
  match reDoubleConstMatch typ.data with
  | some g => "const(" ++ String.mk g ++ "*)*"
  | none =>
    match reSingleConstMatch typ.data with
    | some g => "const(" ++ String.mk g ++ ")*"
    | none => typ

/-! ## Emission Engine: guards and the per-kind sections.

`with sf.indentBlock():` around straight-line code that cannot raise is
modelled as the explicit indent/unindent pair the context manager performs. -/

/-- Python `" " * (maxLen - len(name))`. -/
def spacerStr (n : Nat) : String := String.mk (List.replicate n ' ')

/-- `cmd.name[2:]` — the member name derived from a command name
(`vkCmdName` becomes `CmdName`). -/
def membName (name : String) : String := name.drop 2

/-- The `maxLen = 0; for x: maxLen = max(maxLen, len(x))` idiom. -/
def maxLenFold (names : List String) : Nat :=
  names.foldl (fun m n => max m n.length) 0

/-- `FeatureGuard.begin` (lines 148-151): one `version(...) \x7b` line and one
level of indentation per version-guard token, in order. -/
def FeatureGuard.begin (fg : FeatureGuard) (sf : SourceFile) : SourceFile :=
  fg.versionGuards.foldl
    (fun sf vg => (sf.call ("version(" ++ vg ++ ") \x7b")).indent) sf

/-- `FeatureGuard.end` (lines 153-156): one unindent and one closing brace
line per version-guard token. -/
def FeatureGuard.end_ (fg : FeatureGuard) (sf : SourceFile) : SourceFile :=
  fg.versionGuards.foldl (fun sf _ => (sf.unindent).call "\x7d") sf

/-- `Feature.beginGuard` (lines 208-210). -/
def Feature.beginGuard (f : Feature) (sf : SourceFile) : SourceFile :=
  match f.guard with
  | some g => g.begin sf
  | none => sf

/-- `Feature.endGuard` (lines 212-214). -/
def Feature.endGuard (f : Feature) (sf : SourceFile) : SourceFile :=
  match f.guard with
  | some g => g.end_ sf
  | none => sf

/-- `self.basicTypes` of `DGenerator.__init__`, in dict insertion order. -/
def basicTypes : List (String × String) :=
  [("uint8_t", "ubyte"), ("uint16_t", "ushort"),
   ("uint32_t", "uint"), ("uint64_t", "ulong"),
   ("int8_t", "byte"), ("int16_t", "short"),
   ("int32_t", "int"), ("int64_t", "long")]

/-- The `VK_KHR_win32_surface` entry of `self.featureGuards`. -/
def win32Guard : FeatureGuard :=
  ⟨"VK_KHR_win32_surface", ["Windows"],
   ["import core.sys.windows.windef : HINSTANCE, HWND;"]⟩

/-- The `VK_KHR_xcb_surface` entry of `self.featureGuards`. -/
def xcbGuard : FeatureGuard :=
  ⟨"VK_KHR_xcb_surface", ["linux", "VkXcb"],
   ["import xcb.xcb : xcb_connection_t, xcb_visualid_t, xcb_window_t;"]⟩

/-- The `VK_KHR_wayland_surface` entry of `self.featureGuards`. -/
def waylandGuard : FeatureGuard :=
  ⟨"VK_KHR_wayland_surface", ["linux", "VkWayland"],
   ["import wayland.native.client : wl_display, wl_proxy;",
    "alias wl_surface = wl_proxy;"]⟩

/-- `"alias %s%s = %s;" % (name, spacer, aliasTo)`. -/
def baseTypeAliasLine (maxLen : Nat) (name aliasTo : String) : String :=
  "alias " ++ name ++ spacerStr (maxLen - name.length) ++ " = " ++ aliasTo ++ ";"

/-- Loop body of the per-feature loop of `issueBaseTypes` (lines 468-478). -/
def issueBaseTypesGroup (sf : SourceFile) (f : Feature) : SourceFile :=
  let sf := sf.call ""
  let sf := sf.call ("// " ++ f.name)
  let sf := f.beginGuard sf
  let maxLen := maxLenFold (f.baseTypes.map BaseType.name)
  let sf := f.baseTypes.foldl
    (fun sf bt => sf.call (baseTypeAliasLine maxLen bt.name bt.aliasTo)) sf
  f.endGuard sf

/-- `DGenerator.issueBaseTypes` (lines 458-478): a fixed preamble, the eight
basic-type aliases, then one group per feature with a nonempty `baseTypes`
list (`for f in [f for f in self.features if len(f.baseTypes) > 0]`). -/
def issueBaseTypes (sf : SourceFile) (features : List Feature) : SourceFile :=
  let sf := sf.call ""
  let sf := sf.call "// Basic types definition"
  let sf := sf.call ""
  let maxLen := maxLenFold (basicTypes.map Prod.fst)
  let sf := basicTypes.foldl
    (fun sf bt => sf.call (baseTypeAliasLine maxLen bt.1 bt.2)) sf
  (features.filter (fun f => !f.baseTypes.isEmpty)).foldl issueBaseTypesGroup sf

/-- `"enum %s%s = %s;" % (name, spacer, value)`. -/
def constLine (maxLen : Nat) (c : Const) : String :=
  "enum " ++ c.name ++ spacerStr (maxLen - c.name.length) ++ " = " ++ c.value ++ ";"

/-- Loop body of the per-feature loop of `issueConsts` (lines 564-574). -/
def issueConstsGroup (sf : SourceFile) (f : Feature) : SourceFile :=
  let sf := sf.call ""
  let sf := sf.call ("// " ++ f.name)
  let sf := f.beginGuard sf
  let maxLen := maxLenFold (f.consts.map Const.name)
  let sf := f.consts.foldl (fun sf c => sf.call (constLine maxLen c)) sf
  f.endGuard sf

/-- `DGenerator.issueConsts` (lines 561-574): a fixed preamble, then one
group per feature with a nonempty `consts` list. -/
def issueConsts (sf : SourceFile) (features : List Feature) : SourceFile :=
  let sf := sf.call ""
  let sf := sf.call "// Constants"
  (features.filter (fun f => !f.consts.isEmpty)).foldl issueConstsGroup sf

/-! Pure line lists describing what the guard and group emitters append,
used to state the bracketing/skipping theorems. -/

def guardBeginLines : List String → Int → List String
  | [], _ => []
  | vg :: rest, i =>
    (indentStr i ++ ("version(" ++ vg ++ ") \x7b")) :: guardBeginLines rest (i + 1)

def guardEndLines : List String → Int → List String
  | [], _ => []
  | _ :: rest, i => (indentStr (i - 1) ++ "\x7d") :: guardEndLines rest (i - 1)

/-- The version-guard tokens of a feature (empty when unguarded). -/
def vgsOf (f : Feature) : List String :=
  match f.guard with
  | some g => g.versionGuards
  | none => []

/-- The lines one feature's group contributes to the Constants section when
emission starts at indentation `i`: blank line, feature comment, the guard's
opening lines, the aligned constants one level inside the innermost guard,
and the guard's closing lines. -/
def constGroupLines (i : Int) (f : Feature) : List String :=
  let maxLen := maxLenFold (f.consts.map Const.name)
  (indentStr i ++ "") :: (indentStr i ++ ("// " ++ f.name)) ::
    (guardBeginLines (vgsOf f) i ++
      f.consts.map (fun c => indentStr (i + (vgsOf f).length) ++ constLine maxLen c) ++
      guardEndLines (vgsOf f) (i + (vgsOf f).length))

/-- The lines one feature's group contributes to the Basic-types section when
emission starts at indentation `i`: blank line, feature comment, the guard's
opening lines, the aligned aliases one level inside the innermost guard, and
the guard's closing lines. -/
def baseGroupLines (i : Int) (f : Feature) : List String :=
  let maxLen := maxLenFold (f.baseTypes.map BaseType.name)
  (indentStr i ++ "") :: (indentStr i ++ ("// " ++ f.name)) ::
    (guardBeginLines (vgsOf f) i ++
      f.baseTypes.map (fun bt => indentStr (i + (vgsOf f).length)
        ++ baseTypeAliasLine maxLen bt.name bt.aliasTo) ++
      guardEndLines (vgsOf f) (i + (vgsOf f).length))

/-! ## Header-version capture (genType, lines 351-354) and its emission
(endFile, lines 289-290) -/

/-- The inputs of one `genType` callback that are relevant to the
header-version slot: the alias flag, the optional `category` attribute, the
type name, and the element's text items (`itertext`). -/
structure TypeDefineEvent where
  isAlias : Bool
  category? : Option String
  name : String
  texts : List String
deriving DecidableEq, Repr

/-- Effect of one `genType` callback on `self.headerVersion`: aliases and
category-less elements return early; a `define` named `VK_HEADER_VERSION`
overwrites the slot with the third text item
(`islice(typeinfo.elem.itertext(), 2, 3)`) when it exists; every other
category leaves the slot unchanged. -/
def genTypeHeaderVersion (hv : String) (e : TypeDefineEvent) : String :=
  if e.isAlias then hv
  else
    match e.category? with
    | none => hv
    | some cat =>
      if cat = "define" ∧ e.name = "VK_HEADER_VERSION" then
        ((e.texts.drop 2).head?).getD hv
      else hv

/-- Whether one `genType` callback overwrites the header-version slot. -/
def capturesHeaderVersion (e : TypeDefineEvent) : Bool :=
  !e.isAlias && (e.category? == some "define")
    && (e.name == "VK_HEADER_VERSION") && !(e.texts.drop 2).isEmpty

/-- The header-version lines of `endFile` (lines 289-290): one line when the
slot was ever written, none otherwise. -/
def emitHeaderVersion (hv : String) : List String :=
  if hv ≠ "" then ["enum VK_HEADER_VERSION = " ++ hv ++ ";"] else []

/-! ## issueGlobalCmds (lines 658-699) -/

/-- `", ".join("{} {}".format(p.typeStr, p.name) for p in params)`. -/
def paramStrOf (cmd : Command) : String :=
  ", ".intercalate (cmd.params.map (fun p => p.typeStr ++ " " ++ p.name))

/-- `", ".join(p.name for p in params)`. -/
def argStrOf (cmd : Command) : String :=
  ", ".intercalate (cmd.params.map (fun p => p.name))

/-- `"_%s%s = cast(PFN_%s)%sloader(null, \"%s\");"`. -/
def globalLoaderLine (maxLen : Nat) (cmd : Command) : String :=
  "_" ++ membName cmd.name ++ spacerStr (maxLen - cmd.name.length)
    ++ " = cast(PFN_" ++ cmd.name ++ ")" ++ spacerStr (maxLen - cmd.name.length)
    ++ "loader(null, \"" ++ cmd.name ++ "\");"

/-- One public forwarding method of VkGlobalCmds (lines 686-691). -/
def globalMethodStep (sf : SourceFile) (cmd : Command) : SourceFile :=
  let sf := sf.call ""
  let sf := sf.call (cmd.returnType ++ " " ++ membName cmd.name ++ " ("
    ++ paramStrOf cmd ++ ") \x7b")
  let sf := sf.indent
  let sf := sf.call ("assert(_" ++ membName cmd.name ++ " !is null, \""
    ++ cmd.name ++ " was not loaded.\");")
  let sf := sf.call ("return _" ++ membName cmd.name ++ "(" ++ argStrOf cmd ++ ");")
  let sf := sf.unindent
  sf.call "\x7d"

/-- `"private PFN_%s%s _%s;"`. -/
def globalFieldLine (maxLen : Nat) (cmd : Command) : String :=
  "private PFN_" ++ cmd.name ++ spacerStr (maxLen - cmd.name.length)
    ++ " _" ++ membName cmd.name ++ ";"

/-- `DGenerator.issueGlobalCmds` (lines 658-699): one `VkGlobalCmds` class
over the generator-wide `self.globalCmds` list — a constructor resolving
every global command but the bootstrap loader itself, one forwarding method
per command, and one private field per command.  No feature list is consulted
and no feature guard is opened. -/
def issueGlobalCmds (sf : SourceFile) (globalCmds : List Command) : SourceFile :=
  let maxLen := maxLenFold (globalCmds.map Command.name)
  let sf := sf.call ""
  let sf := sf.call "// Global commands"
  let sf := sf.call ""
  let sf := sf.call "final class VkGlobalCmds \x7b"
  let sf := sf.indent
  let sf := sf.call ""
  let sf := sf.call "this (PFN_vkGetInstanceProcAddr loader) \x7b"
  let sf := sf.indent
  let sf := sf.call "_GetInstanceProcAddr = loader;"
  let sf := (globalCmds.filter (fun cmd => cmd.name != "vkGetInstanceProcAddr")).foldl
    (fun sf cmd => sf.call (globalLoaderLine maxLen cmd)) sf
  let sf := sf.unindent
  let sf := sf.call "\x7d"
  let sf := globalCmds.foldl (fun sf cmd => globalMethodStep sf cmd) sf
  let sf := sf.call ""
  let sf := globalCmds.foldl (fun sf cmd => sf.call (globalFieldLine maxLen cmd)) sf
  let sf := sf.unindent
  sf.call "\x7d"

/-- The five lines of one VkGlobalCmds forwarding method at indentation `i`. -/
def globalMethodLines (i : Int) (cmd : Command) : List String :=
  [indentStr i ++ "",
   indentStr i ++ (cmd.returnType ++ " " ++ membName cmd.name ++ " ("
     ++ paramStrOf cmd ++ ") \x7b"),
   indentStr (i + 1) ++ ("assert(_" ++ membName cmd.name ++ " !is null, \""
     ++ cmd.name ++ " was not loaded.\");"),
   indentStr (i + 1) ++ ("return _" ++ membName cmd.name ++ "(" ++ argStrOf cmd ++ ");"),
   indentStr i ++ "\x7d"]

/-- Everything `issueGlobalCmds` appends, as a pure function of the
aggregated global-command list alone: one class block, no guard lines. -/
def vkGlobalCmdsLines (i : Int) (gcs : List Command) : List String :=
  let maxLen := maxLenFold (gcs.map Command.name)
  (indentStr i ++ "") :: (indentStr i ++ "// Global commands") ::
  (indentStr i ++ "") :: (indentStr i ++ "final class VkGlobalCmds \x7b") ::
  (indentStr (i + 1) ++ "") ::
  (indentStr (i + 1) ++ "this (PFN_vkGetInstanceProcAddr loader) \x7b") ::
  (indentStr (i + 1 + 1) ++ "_GetInstanceProcAddr = loader;") ::
  (((gcs.filter (fun cmd => cmd.name != "vkGetInstanceProcAddr")).map
      (fun cmd => indentStr (i + 1 + 1) ++ globalLoaderLine maxLen cmd)) ++
    ((indentStr (i + 1) ++ "\x7d") ::
      (gcs.flatMap (globalMethodLines (i + 1)) ++
        ((indentStr (i + 1) ++ "") ::
          (gcs.map (fun cmd => indentStr (i + 1) ++ globalFieldLine maxLen cmd) ++
            [indentStr i ++ "\x7d"])))))

end Vkdgen

namespace Vkdgen

/-! ## Theorems for the Command Classifier claims -/

/-- C1 (amended): the classifier assigns exactly one tier: `global` iff the
name is in the fixed denylist (regardless of parameters); `device` iff the
name is not in the denylist, is not the device-proc-address lookup command and
the FIRST parameter exists and has a mapped type in
\x7bVkDevice, VkQueue, VkCommandBuffer\x7d; `instance` otherwise. -/
theorem classifyCmd_tier_characterization (name : String) (params : List Param) :
    (classifyCmd name params = Tier.global ↔ name ∈ globalCmdNames) ∧
    (classifyCmd name params = Tier.device ↔
      name ∉ globalCmdNames ∧ name ≠ "vkGetDeviceProcAddr" ∧
      ∃ p, params.head? = some p ∧ p.typeStr ∈ deviceParamTypes) ∧
    (classifyCmd name params = Tier.instance_ ↔
      name ∉ globalCmdNames ∧
      (name = "vkGetDeviceProcAddr" ∨
        ∀ p, params.head? = some p → p.typeStr ∉ deviceParamTypes)) := by
  by_cases hg : name ∈ globalCmdNames
  · simp [classifyCmd, List.contains, hg]
  · cases params with
    | nil =>
      simp [classifyCmd, List.contains, firstParamIsDeviceLevel, hg]
    | cons p ps =>
      by_cases hn : name = "vkGetDeviceProcAddr"
      · subst hn
        simp [classifyCmd, List.contains, firstParamIsDeviceLevel, globalCmdNames]
      · by_cases hd : p.typeStr ∈ deviceParamTypes
        · simp [classifyCmd, List.contains, firstParamIsDeviceLevel, hg, hn, hd]
        · simp [classifyCmd, List.contains, firstParamIsDeviceLevel, hg, hn, hd]

/-- C1 counterexample: a command that is in no denylist, is not the lookup
command, and has a device-level handle as its SECOND parameter.  The spec's
classifier (any-parameter rule) yields `device`, the code yields `instance`. -/
theorem classifyCmd_second_param_counterexample :
    specClassifyCmd "vkFooBar" [⟨"a", "VkInstance"⟩, ⟨"b", "VkDevice"⟩] = Tier.device ∧
    classifyCmd "vkFooBar" [⟨"a", "VkInstance"⟩, ⟨"b", "VkDevice"⟩] = Tier.instance_ ∧
    Tier.device ≠ Tier.instance_ := by
  decide

/-- C7: a command named exactly `vkGetDeviceProcAddr` is always classified
`instance`, never `device`, whatever its parameters are. -/
theorem classifyCmd_getDeviceProcAddr (params : List Param) :
    classifyCmd "vkGetDeviceProcAddr" params = Tier.instance_ ∧
    classifyCmd "vkGetDeviceProcAddr" params ≠ Tier.device := by
  constructor <;> simp [classifyCmd, globalCmdNames]

/-! ## Theorems for the keyword-escape claim (C2) -/

/-- C2 counterexample: a command parameter whose raw registry name is the D
keyword `module` is stored unescaped by `genCmd`, and a function-pointer
parameter token is likewise only stripped of punctuation, never
keyword-escaped — even though `mapDName` would have escaped it. -/
theorem genCmdParam_keyword_unescaped_counterexample :
    "module" ∈ dkeywords ∧
    (genCmdParam "module" "VkShaderModule").name = "module" ∧
    (genCmdParam "module" "VkShaderModule").name ≠ "module" ++ "_" ∧
    funcptrParamName "module),".data = "module".data ∧
    mapDName "module" = "module_" := by
  decide

/-- C2 (amended): only the structure-field construction site escapes a
keyword-colliding raw name (matching `mapDName`); the command-parameter
construction site stores the raw registry name unchanged. -/
theorem param_keyword_escape_sites (raw typeStr : String) :
    structMemberParam raw typeStr = ⟨mapDName raw, typeStr⟩ ∧
    (raw ∈ dkeywords → (structMemberParam raw typeStr).name = raw ++ "_") ∧
    (genCmdParam raw typeStr).name = raw := by
  refine ⟨?_, ?_, rfl⟩
  · by_cases h : raw ∈ dkeywords <;> simp [structMemberParam, mapDName, h]
  · intro h
    simp [structMemberParam, h]

/-- Closed instantiation of `param_keyword_escape_sites` at the keyword
`module`. -/
theorem param_keyword_escape_sites_witness :
    structMemberParam "module" "int" = ⟨mapDName "module", "int"⟩ ∧
    (structMemberParam "module" "int").name = "module" ++ "_" :=
  ⟨(param_keyword_escape_sites "module" "int").1,
   (param_keyword_escape_sites "module" "int").2.1 (by decide)⟩

/-! ## Theorems for the indent-block claim (C9) -/

/-- C9: the scoped indentation block restores the indentation level on both
exit paths.  Unconditionally, the resulting level is one less than the level
the body ended with — i.e. `__exit__`'s unindent runs on the normal path and
on the exceptional path alike — and therefore, whenever the body itself is
indentation-neutral on both of its outcomes, the level after the block equals
the level just before the block was entered. -/
theorem indentBlock_restores_indent {ε : Type}
    (body : SourceFile → PyResult ε SourceFile) (sf : SourceFile)
    (hbody : ∀ s, ((body s).state).indentLvl = s.indentLvl) :
    ((withIndentBlock body sf).state).indentLvl = sf.indentLvl ∧
    (∀ e s2, body sf.indent = .exn e s2 →
      withIndentBlock body sf = .exn e s2.unindent) := by
  have h := hbody sf.indent
  constructor
  · unfold withIndentBlock
    cases hb : body sf.indent with
    | ok s2 =>
      rw [hb] at h
      simp only [PyResult.state] at h ⊢
      simp [SourceFile.unindent, SourceFile.indent, h]
    | exn e s2 =>
      rw [hb] at h
      simp only [PyResult.state] at h ⊢
      simp [SourceFile.unindent, SourceFile.indent, h]
  · intro e s2 hb
    unfold withIndentBlock
    rw [hb]

/-- Closed instantiation of `indentBlock_restores_indent` for a body that
raises immediately: the exceptional exit still restores the level. -/
theorem indentBlock_restores_indent_witness :
    ((withIndentBlock (fun s => PyResult.exn () s) ⟨[], 5⟩).state).indentLvl = 5 :=
  (indentBlock_restores_indent (fun s => PyResult.exn () s) ⟨[], 5⟩ (fun _ => rfl)).1

/-! ## Theorems for the enum-value normalization claims (C5, C6) -/

theorem replaceAllAux_of_not_infix (pat rep : List Char) :
    ∀ (fuel : Nat) (s : List Char), ¬ (pat <:+: s) →
      replaceAllAux pat rep fuel s = s := by
  intro fuel
  induction fuel with
  | zero => intro s h; cases s <;> rfl
  | succ fuel ih =>
    intro s h
    cases s with
    | nil => rfl
    | cons c rest =>
      rw [replaceAllAux, if_neg, ih rest (fun hinf => h (List.infix_cons hinf))]
      intro hcond
      have hpre : pat.isPrefixOf (c :: rest) = true := by
        simpa using (Bool.and_elim_right hcond)
      exact h ((List.isPrefixOf_iff_prefix.mp hpre).isInfix)

theorem replaceAll_of_not_infix {pat : List Char} (rep : List Char)
    {s : List Char} (h : ¬ (pat <:+: s)) : replaceAll pat rep s = s :=
  replaceAllAux_of_not_infix pat rep s.length s h

theorem replaceAllAux_single_filter (a : Char) :
    ∀ (fuel : Nat) (s : List Char), s.length ≤ fuel →
      replaceAllAux [a] [] fuel s = s.filter (fun c => !(c == a)) := by
  intro fuel
  induction fuel with
  | zero =>
    intro s hs
    have : s = [] := List.length_eq_zero.mp (Nat.le_zero.mp hs)
    subst this; rfl
  | succ fuel ih =>
    intro s hs
    cases s with
    | nil => rfl
    | cons c rest =>
      rw [replaceAllAux]
      have hrest : rest.length ≤ fuel := by
        simp only [List.length_cons] at hs
        omega
      by_cases hac : a = c
      · subst hac
        have hcond : ((!([a] : List Char).isEmpty) && [a].isPrefixOf (a :: rest)) = true := by
          simp [List.isPrefixOf]
        rw [if_pos hcond]
        have hdrop : (a :: rest).drop ([a] : List Char).length = rest := rfl
        rw [hdrop, List.nil_append, ih rest hrest]
        simp [List.filter_cons]
      · have hcond : ((!([a] : List Char).isEmpty) && [a].isPrefixOf (c :: rest)) = false := by
          have h1 : ([a].isPrefixOf (c :: rest)) = false := by
            rw [List.isPrefixOf_cons₂]
            simp only [List.isPrefixOf_nil_left, Bool.and_true]
            exact beq_eq_false_iff_ne.mpr hac
          rw [h1, Bool.and_false]
        rw [hcond, if_neg (by simp)]
        rw [ih rest hrest]
        have hca : (c == a) = false := beq_eq_false_iff_ne.mpr (fun hcc => hac hcc.symm)
        simp [List.filter_cons, hca]

theorem replaceAll_single_filter (a : Char) (s : List Char) :
    replaceAll [a] [] s = s.filter (fun c => !(c == a)) :=
  replaceAllAux_single_filter a s.length s (Nat.le_refl _)

theorem stripParens_eq_filter (s : List Char) :
    stripParens s = (s.filter (fun c => !(c == '('))).filter (fun c => !(c == ')')) := by
  unfold stripParens
  rw [show ")".data = [')'] from rfl, show "(".data = ['('] from rfl,
    show "".data = ([] : List Char) from rfl, replaceAll_single_filter, replaceAll_single_filter]

theorem stripParens_paren_free (s : List Char) :
    '(' ∉ stripParens s ∧ ')' ∉ stripParens s := by
  rw [stripParens_eq_filter]
  constructor
  · intro hmem
    rcases List.mem_filter.mp hmem with ⟨hmem2, _⟩
    rcases List.mem_filter.mp hmem2 with ⟨_, hp⟩
    simp at hp
  · intro hmem
    rcases List.mem_filter.mp hmem with ⟨_, hp⟩
    simp at hp

/-- C6: the value stored by `genEnum` is the raw registry value text with the
unsigned-long-long strip, then the long strip, then the unsigned strip, then
the parenthesis strips applied, in that order; in particular the stored value
contains no parenthesis characters. -/
theorem genEnum_value_normalized (feat : Feature) (name strVal : String) :
    (genEnumUpdate feat name strVal).consts
      = feat.consts ++ [⟨name, normValue strVal⟩] ∧
    (normValue strVal).data = stripParens (stripU (stripL (stripULL strVal.data))) ∧
    '(' ∉ (normValue strVal).data ∧ ')' ∉ (normValue strVal).data := by
  refine ⟨rfl, rfl, ?_, ?_⟩
  · exact (stripParens_paren_free _).1
  · exact (stripParens_paren_free _).2

/-- C5 counterexample: the normalization is not idempotent.  On `0UL` the
unsigned strip glues `0` and `L` together into the long-suffix marker `0L`,
which a second application strips further. -/
theorem normValue_not_idempotent :
    normValue "0UL" = "0L" ∧ normValue "0L" = "0" ∧
    normValue (normValue "0UL") ≠ normValue "0UL" := by
  decide

/-- C5 (amended): the normalization is idempotent on every string whose
normalized form contains no remaining suffix-marker substring (`0L` or `0U`);
the first application always removes all parentheses, so under that proviso a
second application changes nothing.  Full idempotence fails (see the `0UL`
counterexample). -/
theorem normValue_idempotent_of_no_marker (s : String)
    (hL : ¬ ("0L".data <:+: (normValue s).data))
    (hU : ¬ ("0U".data <:+: (normValue s).data)) :
    normValue (normValue s) = normValue s := by
  have hULL : ¬ ("0ULL".data <:+: (normValue s).data) := by
    intro h
    exact hU (List.IsInfix.trans (by decide) h)
  have hparen : '(' ∉ (normValue s).data ∧ ')' ∉ (normValue s).data :=
    stripParens_paren_free (stripU (stripL (stripULL s.data)))
  have e1 : stripULL (normValue s).data = (normValue s).data :=
    replaceAll_of_not_infix "0".data hULL
  have e2 : stripL (normValue s).data = (normValue s).data :=
    replaceAll_of_not_infix "0".data hL
  have e3 : stripU (normValue s).data = (normValue s).data :=
    replaceAll_of_not_infix "0".data hU
  have hin : List.filter (fun c => !(c == '(')) (normValue s).data = (normValue s).data := by
    apply List.filter_eq_self.mpr
    intro a ha
    simp only [Bool.not_eq_true']
    apply beq_eq_false_iff_ne.mpr
    intro heq
    subst heq
    exact hparen.1 ha
  have hout : List.filter (fun c => !(c == ')')) (normValue s).data = (normValue s).data := by
    apply List.filter_eq_self.mpr
    intro a ha
    simp only [Bool.not_eq_true']
    apply beq_eq_false_iff_ne.mpr
    intro heq
    subst heq
    exact hparen.2 ha
  have h0 : normValue (normValue s)
      = ⟨stripParens (stripU (stripL (stripULL (normValue s).data)))⟩ := rfl
  rw [h0, e1, e2, e3, stripParens_eq_filter, hin, hout]

/-- Closed instantiation of `normValue_idempotent_of_no_marker` at the
registry value `(~0ULL)`. -/
theorem normValue_idempotent_witness :
    normValue (normValue "(~0ULL)") = normValue "(~0ULL)" :=
  normValue_idempotent_of_no_marker "(~0ULL)" (by decide) (by decide)

/-! ## Theorems for the const-rewrite claim (C4) -/

theorem findStarSplit_none_all {sOk : List Char → Bool} {l : List Char}
    (h : ∀ i, groupSplitAt sOk l i = none) :
    ∀ fuel, findStarSplit sOk l fuel = none := by
  intro fuel
  induction fuel with
  | zero => rfl
  | succ k ih => simp only [findStarSplit, h (k + 1)]; exact ih

theorem findStarSplit_finds {sOk : List Char → Bool} {l : List Char} {k : Nat}
    {g : List Char} (hk0 : k ≠ 0)
    (hsome : groupSplitAt sOk l k = some g)
    (habove : ∀ i, k < i → groupSplitAt sOk l i = none) :
    ∀ fuel, k ≤ fuel → findStarSplit sOk l fuel = some g := by
  intro fuel
  induction fuel with
  | zero =>
    intro hk
    exact absurd (Nat.le_zero.mp hk) hk0
  | succ m ih =>
    intro hkm
    by_cases heq : k = m + 1
    · subst heq
      simp only [findStarSplit, hsome]
    · have hle : k ≤ m := by omega
      simp only [findStarSplit, habove (m + 1) (by omega)]
      exact ih hle

theorem matchConstRe_const_space (sOk : List Char → Bool) (M : List Char)
    (hM : M.takeWhile isPySpace = []) :
    matchConstRe sOk ("const".data ++ (' ' :: M))
      = findStarSplit sOk M M.length := by
  unfold matchConstRe
  rw [if_pos (List.isPrefixOf_iff_prefix.mpr (List.prefix_append _ _))]
  have hdrop5 : (("const".data ++ (' ' :: M))).drop 5 = ' ' :: M :=
    List.drop_left' (by rfl)
  rw [hdrop5]
  have htw : (' ' :: M).takeWhile isPySpace = [' '] := by
    rw [List.takeWhile_cons]
    simp [isPySpace, hM]
  rw [htw]
  show matchAfterWs sOk (' ' :: M) 1 = _
  simp only [matchAfterWs, Nat.zero_add, List.drop_succ_cons, List.drop_zero]
  cases hfs : findStarSplit sOk M M.length <;> simp [hfs, matchAfterWs]

/-- C4: on well-formed single-indirection inputs `const T*` the mapper yields
`const(T)*` via the single rule, on double-indirection inputs `const T* const*`
it yields `const(T*)*` via the double rule, and the rules are exclusive: the
double regex does not match the single-indirection form (and when it matches
the double form the single rule is never consulted, by the if/else order of
convertDTypeConst).  `T` ranges over type texts: nonempty, with no `*`, no
newline, and no leading whitespace. -/
theorem convertDTypeConst_const_rules (T : String)
    (hne : T.data ≠ [])
    (hstar : ∀ c ∈ T.data, c ≠ '*')
    (hnl : ∀ c ∈ T.data, c ≠ '\n')
    (hlead : isPySpace (T.data.headD ' ') = false) :
    convertDTypeConst ("const " ++ T ++ "*") = "const(" ++ T ++ ")*" ∧
    convertDTypeConst ("const " ++ T ++ "* const*") = "const(" ++ T ++ "*)*" ∧
    reDoubleConstMatch ("const " ++ T ++ "*").data = none ∧
    reSingleConstMatch ("const " ++ T ++ "*").data = some T.data ∧
    reDoubleConstMatch ("const " ++ T ++ "* const*").data = some T.data := by
  obtain ⟨c, t, hct⟩ : ∃ c t, T.data = c :: t := by
    cases h : T.data with
    | nil => exact absurd h hne
    | cons c t => exact ⟨c, t, rfl⟩
  have hc : isPySpace c = false := by
    rw [hct] at hlead
    simpa using hlead
  have hl0 : T.data.length ≠ 0 := fun h => hne (List.length_eq_zero.mp h)
  have hl0s : ¬ T.length = 0 :=
    fun h => hl0 (by rwa [show T.length = T.data.length from rfl] at h)
  have hall : (T.data.all (fun x => !(x == '\n'))) = true := by
    rw [List.all_eq_true]
    intro x hx
    simpa using hnl x hx
  have htwStep : ∀ X : List Char, (T.data ++ X).takeWhile isPySpace = [] := by
    intro X
    rw [hct, List.cons_append, List.takeWhile_cons]
    simp [hc]
  -- the two input shapes, as lists
  have hsd1 : ("const " ++ T ++ "*").data
      = "const".data ++ (' ' :: (T.data ++ ['*'])) := by
    rw [String.data_append, String.data_append, List.append_assoc]
    rfl
  have hsd2 : ("const " ++ T ++ "* const*").data
      = "const".data ++ (' ' :: (T.data ++ ('*' :: ' ' :: "const*".data))) := by
    rw [String.data_append, String.data_append, List.append_assoc]
    rfl
  -- the single rule on the single-indirection form
  have hg2s : groupSplitAt allSpace (T.data ++ ['*']) T.data.length
      = some T.data := by
    simp only [groupSplitAt, List.drop_left, List.take_left]
    simp [hall, hl0, hl0s, allSpace]
  have habove1 : ∀ i, T.data.length < i →
      groupSplitAt allSpace (T.data ++ ['*']) i = none := by
    intro i hi
    have hlen : (T.data ++ ['*']).length ≤ i := by
      simp only [List.length_append, List.length_cons, List.length_nil]
      omega
    simp [groupSplitAt, List.drop_of_length_le hlen]
  have hsingle : reSingleConstMatch ("const " ++ T ++ "*").data = some T.data := by
    rw [hsd1]
    show matchConstRe allSpace _ = _
    rw [matchConstRe_const_space allSpace _ (htwStep ['*'])]
    have hlenl : (T.data ++ ['*']).length = T.data.length + 1 := by simp
    rw [hlenl]
    exact findStarSplit_finds hl0 hg2s habove1 _ (by omega)
  -- the double rule does not match the single-indirection form
  have hdallnone : ∀ i, groupSplitAt doubleSuffixOk (T.data ++ ['*']) i = none := by
    intro i
    cases hdi : (T.data ++ ['*']).drop i with
    | nil => simp [groupSplitAt, hdi]
    | cons d rest =>
      by_cases hd : d = '*'
      · subst hd
        have hi_lt : i < T.data.length + 1 := by
          have h1 := List.length_lt_of_drop_ne_nil
            (l := T.data ++ ['*']) (n := i) (by rw [hdi]; simp)
          simpa using h1
        by_cases hin : i < T.data.length
        · exfalso
          have hsub : (T.data ++ ['*']).drop i = T.data.drop i ++ ['*'] :=
            List.drop_append_of_le_length (by omega)
          rw [hsub] at hdi
          cases hti : T.data.drop i with
          | nil =>
            have : T.data.length ≤ i := by
              have := congrArg List.length hti
              simp only [List.length_drop, List.length_nil] at this
              omega
            omega
          | cons e es =>
            rw [hti, List.cons_append] at hdi
            have he : e = '*' := by injection hdi
            have hmem : e ∈ T.data :=
              List.drop_subset i T.data (hti ▸ List.mem_cons_self e es)
            exact hstar e hmem he
        · have hieq : i = T.data.length := by omega
          subst hieq
          simp only [groupSplitAt, List.drop_left]
          simp [doubleSuffixOk]
      · have hdb : (d == '*') = false := beq_eq_false_iff_ne.mpr hd
        simp [groupSplitAt, hdi, hdb]
  have hdoubleNone : reDoubleConstMatch ("const " ++ T ++ "*").data = none := by
    rw [hsd1]
    show matchConstRe doubleSuffixOk _ = _
    rw [matchConstRe_const_space doubleSuffixOk _ (htwStep ['*'])]
    exact findStarSplit_none_all hdallnone _
  -- the double rule on the double-indirection form
  have hg2d : groupSplitAt doubleSuffixOk
      (T.data ++ ('*' :: ' ' :: "const*".data)) T.data.length = some T.data := by
    simp only [groupSplitAt, List.drop_left, List.take_left]
    have hds : doubleSuffixOk (' ' :: "const*".data) = true := by decide
    simp [hall, hl0, hl0s, hds]
  have habove2 : ∀ i, T.data.length < i →
      groupSplitAt doubleSuffixOk (T.data ++ ('*' :: ' ' :: "const*".data)) i
        = none := by
    intro i hi
    by_cases hbig : (T.data ++ ('*' :: ' ' :: "const*".data)).length ≤ i
    · simp [groupSplitAt, List.drop_of_length_le hbig]
    · have hlen : (T.data ++ ('*' :: ' ' :: "const*".data)).length
          = T.data.length + 8 := by
        simp only [List.length_append]
        rfl
      rw [hlen] at hbig
      obtain ⟨m, rfl⟩ : ∃ m, i = T.data.length + m :=
        ⟨i - T.data.length, by omega⟩
      have hm1 : 1 ≤ m := by omega
      have hm7 : m ≤ 7 := by omega
      have hdi : (T.data ++ ('*' :: ' ' :: "const*".data)).drop (T.data.length + m)
          = (('*' :: ' ' :: "const*".data) : List Char).drop m := List.drop_append m
      interval_cases m <;>
        (simp only [groupSplitAt]; rw [hdi]; simp [doubleSuffixOk])
  have hdouble : reDoubleConstMatch ("const " ++ T ++ "* const*").data
      = some T.data := by
    rw [hsd2]
    show matchConstRe doubleSuffixOk _ = _
    rw [matchConstRe_const_space doubleSuffixOk _ (htwStep _)]
    have hlenl : (T.data ++ ('*' :: ' ' :: "const*".data)).length
        = T.data.length + 8 := by
      simp only [List.length_append]
      rfl
    rw [hlenl]
    exact findStarSplit_finds hl0 hg2d habove2 _ (by omega)
  refine ⟨?_, ?_, hdoubleNone, hsingle, hdouble⟩
  · unfold convertDTypeConst
    rw [hdoubleNone, hsingle]
  · unfold convertDTypeConst
    rw [hdouble]

/-- Closed instantiation of `convertDTypeConst_const_rules` at `T = char`. -/
theorem convertDTypeConst_const_rules_witness :
    convertDTypeConst ("const " ++ "char" ++ "*") = "const(" ++ "char" ++ ")*" ∧
    convertDTypeConst ("const " ++ "char" ++ "* const*")
      = "const(" ++ "char" ++ "*)*" ∧
    reDoubleConstMatch ("const " ++ "char" ++ "*").data = none ∧
    reSingleConstMatch ("const " ++ "char" ++ "*").data = some "char".data ∧
    reDoubleConstMatch ("const " ++ "char" ++ "* const*").data = some "char".data :=
  convertDTypeConst_const_rules "char" (by decide) (by decide) (by decide) (by decide)


/-! ## Theorems for the emission claims (C3, C8, C10) -/

theorem foldl_call_lines {α : Type} (g : α → String) (l : List α) :
    ∀ sf : SourceFile,
      l.foldl (fun s x => s.call (g x)) sf
        = ⟨sf.lines ++ l.map (fun x => indentStr sf.indentLvl ++ g x), sf.indentLvl⟩ := by
  induction l with
  | nil => intro sf; simp
  | cons x xs ih =>
    intro sf
    rw [List.foldl_cons, ih]
    simp [SourceFile.call, List.append_assoc]

theorem foldl_group_lines {α : Type} (step : SourceFile → α → SourceFile)
    (h : Int → α → List String)
    (hstep : ∀ sf x, step sf x = ⟨sf.lines ++ h sf.indentLvl x, sf.indentLvl⟩)
    (l : List α) :
    ∀ sf : SourceFile,
      l.foldl step sf = ⟨sf.lines ++ l.flatMap (h sf.indentLvl), sf.indentLvl⟩ := by
  induction l with
  | nil => intro sf; simp
  | cons x xs ih =>
    intro sf
    rw [List.foldl_cons, hstep, ih]
    simp [List.append_assoc]

theorem guardBegin_fold (vgs : List String) :
    ∀ sf : SourceFile,
      vgs.foldl (fun sf vg => (sf.call ("version(" ++ vg ++ ") \x7b")).indent) sf
        = ⟨sf.lines ++ guardBeginLines vgs sf.indentLvl,
           sf.indentLvl + vgs.length⟩ := by
  induction vgs with
  | nil => intro sf; simp [guardBeginLines]
  | cons vg rest ih =>
    intro sf
    rw [List.foldl_cons, ih]
    simp [SourceFile.call, SourceFile.indent, guardBeginLines, List.append_assoc]
    omega

theorem guardEnd_fold (vgs : List String) :
    ∀ sf : SourceFile,
      vgs.foldl (fun sf _ => (sf.unindent).call "\x7d") sf
        = ⟨sf.lines ++ guardEndLines vgs sf.indentLvl,
           sf.indentLvl - vgs.length⟩ := by
  induction vgs with
  | nil => intro sf; simp [guardEndLines]
  | cons vg rest ih =>
    intro sf
    rw [List.foldl_cons, ih]
    simp [SourceFile.call, SourceFile.unindent, guardEndLines, List.append_assoc]
    omega

theorem beginGuard_spec (f : Feature) (sf : SourceFile) :
    f.beginGuard sf
      = ⟨sf.lines ++ guardBeginLines (vgsOf f) sf.indentLvl,
         sf.indentLvl + (vgsOf f).length⟩ := by
  cases hg : f.guard with
  | none => simp [Feature.beginGuard, hg, vgsOf, guardBeginLines]
  | some g => simp [Feature.beginGuard, hg, vgsOf, FeatureGuard.begin, guardBegin_fold]

theorem endGuard_spec (f : Feature) (sf : SourceFile) :
    f.endGuard sf
      = ⟨sf.lines ++ guardEndLines (vgsOf f) sf.indentLvl,
         sf.indentLvl - (vgsOf f).length⟩ := by
  cases hg : f.guard with
  | none => simp [Feature.endGuard, hg, vgsOf, guardEndLines]
  | some g => simp [Feature.endGuard, hg, vgsOf, FeatureGuard.end_, guardEnd_fold]

theorem issueConstsGroup_spec (sf : SourceFile) (f : Feature) :
    issueConstsGroup sf f
      = ⟨sf.lines ++ constGroupLines sf.indentLvl f, sf.indentLvl⟩ := by
  simp only [issueConstsGroup, constGroupLines]
  rw [foldl_call_lines]
  simp [SourceFile.call, beginGuard_spec, endGuard_spec, List.append_assoc]

theorem issueBaseTypesGroup_spec (sf : SourceFile) (f : Feature) :
    issueBaseTypesGroup sf f
      = ⟨sf.lines ++ baseGroupLines sf.indentLvl f, sf.indentLvl⟩ := by
  simp only [issueBaseTypesGroup, baseGroupLines]
  rw [foldl_call_lines]
  simp [SourceFile.call, beginGuard_spec, endGuard_spec, List.append_assoc]

theorem issueConsts_lines (sf : SourceFile) (features : List Feature) :
    issueConsts sf features
      = ⟨sf.lines ++ (indentStr sf.indentLvl ++ "")
            :: (indentStr sf.indentLvl ++ "// Constants")
            :: (features.filter (fun f => !f.consts.isEmpty)).flatMap
                 (constGroupLines sf.indentLvl),
         sf.indentLvl⟩ := by
  unfold issueConsts
  rw [foldl_group_lines issueConstsGroup constGroupLines issueConstsGroup_spec]
  simp [SourceFile.call, List.append_assoc]

theorem issueBaseTypes_lines (sf : SourceFile) (features : List Feature) :
    issueBaseTypes sf features
      = ⟨sf.lines ++ (indentStr sf.indentLvl ++ "")
            :: (indentStr sf.indentLvl ++ "// Basic types definition")
            :: (indentStr sf.indentLvl ++ "")
            :: (basicTypes.map (fun bt => indentStr sf.indentLvl
                  ++ baseTypeAliasLine (maxLenFold (basicTypes.map Prod.fst)) bt.1 bt.2)
                ++ (features.filter (fun f => !f.baseTypes.isEmpty)).flatMap
                     (baseGroupLines sf.indentLvl)),
         sf.indentLvl⟩ := by
  simp only [issueBaseTypes]
  rw [foldl_call_lines, foldl_group_lines issueBaseTypesGroup baseGroupLines issueBaseTypesGroup_spec]
  simp [SourceFile.call, List.append_assoc]

/-- C3 counterexample: a guarded feature whose `baseTypes` list is empty is
skipped entirely by the Basic-types section — the section's output is the
same as if the feature did not exist, and no `version(Windows) \x7b` guard
line is ever opened for it. -/
theorem emission_empty_group_skipped_counterexample :
    issueBaseTypes ⟨[], 0⟩ [{ name := "VK_KHR_win32_surface", guard := some win32Guard }]
      = issueBaseTypes ⟨[], 0⟩ [] ∧
    (∀ line ∈ (issueBaseTypes ⟨[], 0⟩
        [{ name := "VK_KHR_win32_surface", guard := some win32Guard }]).lines,
      line ≠ "version(Windows) \x7b") := by
  decide

/-- C3 (amended): a Feature whose entity list for a section is empty is
skipped in that section — its guard is not opened; every Feature with a
nonempty list contributes one group whose guard lines bracket its content
(blank line, comment, guard-begin lines, body one level inside the innermost
guard, guard-end lines), and the section leaves the indentation level where
it found it, so every opened guard is closed before the next group. -/
theorem emission_empty_groups_and_bracketing
    (sf : SourceFile) (features fs1 fs2 : List Feature) (f : Feature) :
    (f.baseTypes = [] →
      issueBaseTypes sf (fs1 ++ f :: fs2) = issueBaseTypes sf (fs1 ++ fs2)) ∧
    (f.consts = [] →
      issueConsts sf (fs1 ++ f :: fs2) = issueConsts sf (fs1 ++ fs2)) ∧
    issueConsts sf features
      = ⟨sf.lines ++ (indentStr sf.indentLvl ++ "")
            :: (indentStr sf.indentLvl ++ "// Constants")
            :: (features.filter (fun f => !f.consts.isEmpty)).flatMap
                 (constGroupLines sf.indentLvl),
         sf.indentLvl⟩ ∧
    (issueBaseTypes sf features).indentLvl = sf.indentLvl ∧
    (issueConsts sf features).indentLvl = sf.indentLvl := by
  refine ⟨?_, ?_, issueConsts_lines sf features, ?_, ?_⟩
  · intro h
    have hfilter : (fs1 ++ f :: fs2).filter (fun f => !f.baseTypes.isEmpty)
        = (fs1 ++ fs2).filter (fun f => !f.baseTypes.isEmpty) := by
      rw [List.filter_append, List.filter_append, List.filter_cons_of_neg (by simp [h])]
    unfold issueBaseTypes
    rw [hfilter]
  · intro h
    have hfilter : (fs1 ++ f :: fs2).filter (fun f => !f.consts.isEmpty)
        = (fs1 ++ fs2).filter (fun f => !f.consts.isEmpty) := by
      rw [List.filter_append, List.filter_append, List.filter_cons_of_neg (by simp [h])]
    unfold issueConsts
    rw [hfilter]
  · rw [issueBaseTypes_lines]
  · rw [issueConsts_lines]

/-- Closed instantiation of `emission_empty_groups_and_bracketing`: the
guarded win32 feature with empty lists is dropped from both sections. -/
theorem emission_empty_groups_and_bracketing_witness :
    issueBaseTypes ⟨[], 0⟩
        ([] ++ { name := "VK_KHR_win32_surface", guard := some win32Guard } :: [])
      = issueBaseTypes ⟨[], 0⟩ ([] ++ []) ∧
    issueConsts ⟨[], 0⟩
        ([] ++ { name := "VK_KHR_win32_surface", guard := some win32Guard } :: [])
      = issueConsts ⟨[], 0⟩ ([] ++ []) :=
  ⟨(emission_empty_groups_and_bracketing ⟨[], 0⟩ [] [] []
      { name := "VK_KHR_win32_surface", guard := some win32Guard }).1 rfl,
   (emission_empty_groups_and_bracketing ⟨[], 0⟩ [] [] []
      { name := "VK_KHR_win32_surface", guard := some win32Guard }).2.1 rfl⟩

theorem genTypeHeaderVersion_not_capture {hv : String} {e : TypeDefineEvent}
    (hc : capturesHeaderVersion e = false) : genTypeHeaderVersion hv e = hv := by
  unfold capturesHeaderVersion at hc
  cases ha : e.isAlias with
  | true => simp [genTypeHeaderVersion, ha]
  | false =>
    cases hcat : e.category? with
    | none => simp [genTypeHeaderVersion, ha, hcat]
    | some cat =>
      rw [ha, hcat] at hc
      by_cases hcond : cat = "define" ∧ e.name = "VK_HEADER_VERSION"
      · have hdrop : (e.texts.drop 2).isEmpty = true := by
          simp only [hcond.1, hcond.2] at hc
          simpa using hc
        have hnil : e.texts.drop 2 = [] := List.isEmpty_iff.mp hdrop
        simp [genTypeHeaderVersion, ha, hcat, hcond, hnil]
      · simp [genTypeHeaderVersion, ha, hcat, hcond]

theorem genTypeHeaderVersion_capture {hv : String} {e : TypeDefineEvent}
    (hc : capturesHeaderVersion e = true) :
    genTypeHeaderVersion hv e = ((e.texts.drop 2).head?).getD "" := by
  unfold capturesHeaderVersion at hc
  simp only [Bool.and_eq_true, Bool.not_eq_true', beq_iff_eq,
    Option.some.injEq] at hc
  obtain ⟨⟨⟨ha, hcat⟩, hname⟩, hne⟩ := hc
  cases ht : e.texts.drop 2 with
  | nil => rw [ht] at hne; exact absurd hne (by simp)
  | cons v vs => simp [genTypeHeaderVersion, ha, hcat, hname, ht]

/-- C8: the header-version define is captured in one generator-wide slot:
folding any sequence of genType events over the initial empty slot yields the
value extracted by the LAST capturing event (later header-version defines
overwrite earlier ones), independent of which features the events belong to;
and the emission fragment of endFile issues at most one line for it. -/
theorem headerVersion_capture (events : List TypeDefineEvent) :
    (events.foldl genTypeHeaderVersion ""
      = (match (events.filter capturesHeaderVersion).getLast? with
         | some e => ((e.texts.drop 2).head?).getD ""
         | none => "")) ∧
    (emitHeaderVersion (events.foldl genTypeHeaderVersion "")).length ≤ 1 := by
  have main : ∀ (evs : List TypeDefineEvent) (init : String),
      evs.foldl genTypeHeaderVersion init
        = (match (evs.filter capturesHeaderVersion).getLast? with
           | some e => ((e.texts.drop 2).head?).getD ""
           | none => init) := by
    intro evs
    induction evs using List.reverseRecOn with
    | nil => intro init; rfl
    | append_singleton l e ih =>
      intro init
      rw [List.foldl_append, List.foldl_cons, List.foldl_nil, List.filter_append]
      cases hc : capturesHeaderVersion e with
      | true =>
        rw [genTypeHeaderVersion_capture hc]
        have : List.filter capturesHeaderVersion [e] = [e] := by
          simp [List.filter, hc]
        rw [this, List.getLast?_concat]
      | false =>
        rw [genTypeHeaderVersion_not_capture hc]
        have : List.filter capturesHeaderVersion [e] = [] := by
          simp [List.filter, hc]
        rw [this, List.append_nil]
        exact ih init
  refine ⟨main events "", ?_⟩
  unfold emitHeaderVersion
  split <;> simp

theorem issueGlobalCmds_lines (sf : SourceFile) (gcs : List Command) :
    issueGlobalCmds sf gcs
      = ⟨sf.lines ++ vkGlobalCmdsLines sf.indentLvl gcs, sf.indentLvl⟩ := by
  have hmethod : ∀ (s : SourceFile) (cmd : Command),
      globalMethodStep s cmd
        = ⟨s.lines ++ globalMethodLines s.indentLvl cmd, s.indentLvl⟩ := by
    intro s cmd
    simp [globalMethodStep, globalMethodLines, SourceFile.call, SourceFile.indent,
      SourceFile.unindent, List.append_assoc]
  simp only [issueGlobalCmds, vkGlobalCmdsLines]
  rw [foldl_call_lines, foldl_group_lines globalMethodStep globalMethodLines hmethod,
    foldl_call_lines]
  simp [SourceFile.call, SourceFile.indent, SourceFile.unindent, List.append_assoc]

/-- C10: a command whose name is in the global denylist is appended to the
open feature's `cmds` and to the single generator-wide `globalCmds` list, and
to neither `instanceCmds` nor `deviceCmds` of the feature; and
`issueGlobalCmds` renders exactly one aggregated `VkGlobalCmds` block from
that generator-wide list alone — a pure function of the aggregated list, with
no feature consulted and no guard line emitted — whereas non-global commands
are stored per feature (`instanceCmds`/`deviceCmds`, cf. `genCmdUpdate`). -/
theorem globalCmds_aggregation (feat : Feature) (gcs : List Command)
    (cmd : Command) (sf : SourceFile) (hg : cmd.name ∈ globalCmdNames) :
    (genCmdUpdate feat gcs cmd).1.cmds = feat.cmds ++ [cmd] ∧
    (genCmdUpdate feat gcs cmd).2 = gcs ++ [cmd] ∧
    (genCmdUpdate feat gcs cmd).1.instanceCmds = feat.instanceCmds ∧
    (genCmdUpdate feat gcs cmd).1.deviceCmds = feat.deviceCmds ∧
    issueGlobalCmds sf gcs
      = ⟨sf.lines ++ vkGlobalCmdsLines sf.indentLvl gcs, sf.indentLvl⟩ := by
  have hcls : classifyCmd cmd.name cmd.params = Tier.global := by
    simp [classifyCmd, List.contains, hg]
  refine ⟨?_, ?_, ?_, ?_, issueGlobalCmds_lines sf gcs⟩ <;>
    simp [genCmdUpdate, hcls]

/-- Closed instantiation of `globalCmds_aggregation` at `vkCreateInstance`. -/
theorem globalCmds_aggregation_witness :
    (genCmdUpdate { name := "VK_VERSION_1_0", guard := none } []
        ⟨"vkCreateInstance", "VkResult", []⟩).2
      = [⟨"vkCreateInstance", "VkResult", []⟩] ∧
    issueGlobalCmds ⟨[], 0⟩ []
      = ⟨[] ++ vkGlobalCmdsLines 0 [], 0⟩ :=
  ⟨(globalCmds_aggregation { name := "VK_VERSION_1_0", guard := none } []
      ⟨"vkCreateInstance", "VkResult", []⟩ ⟨[], 0⟩ (by decide)).2.1,
   (globalCmds_aggregation { name := "VK_VERSION_1_0", guard := none } []
      ⟨"vkCreateInstance", "VkResult", []⟩ ⟨[], 0⟩ (by decide)).2.2.2.2⟩

end Vkdgen
